import Mathlib

/-!
Shallow embedding of the corporate-fb build scripts.

`src/build-images.js` (local image optimizer, shelling out to ImageMagick) and
`src/build-cloudflare.js` (Cloudflare Pages packaging pipeline, using Sharp)
are modelled as pure Lean functions.  External effects are modelled
explicitly:

* `execSync` success/failure is an oracle `env : String → Bool` judging the
  exact command string; a successful conversion writes its output file,
  a failing one writes nothing.
* The filesystem of the local optimizer run is a trace: the list of shell
  commands issued in order, the list of output files written in order, and
  the list of error messages logged.
* The packaging pipeline's `dist` directory is an association list from path
  to symbolic file content (`writeFs` has overwrite-on-existing-path
  semantics like `fs.writeFileSync`); Sharp conversions are assumed
  deterministic in (input, width, quality), so converted contents are
  symbolic `webpOf`/`jpegOf` values.
* `path.join` is modelled as slash concatenation (no normalization), and
  `String.prototype.replace` with the one non-global all-literal regex of
  `build-cloudflare.js` is modelled as leftmost-occurrence replacement
  (`replaceFirstL`); the replacement string contains no `$&`-style patterns,
  so it is inserted verbatim.
-/

namespace CorpFB

/-- Model of `path.join(a, b)` for the simple relative segments used by the scripts,
modelled as slash concatenation (no separator normalization). -/
def pathJoin (a b : String) : String := a ++ "/" ++ b

/-- Index of the last `'.'` in a list of characters (accumulator form). -/
def lastDotAux : List Char → Nat → Option Nat → Option Nat
  | [], _, acc => acc
  | c :: rest, i, acc => lastDotAux rest (i + 1) (if c = '.' then some i else acc)

/-- Model of `path.parse(filename).name` for a plain filename: everything before the
last dot; a filename whose only dot is at position 0 (such as `.jpg`) has no
extension, so the whole filename is the name. -/
def nameWithoutExt (filename : String) : String :=
  match lastDotAux filename.toList 0 none with
  | none => filename
  | some 0 => filename
  | some i => String.mk (filename.toList.take i)

/-- The image-extension filter `/\.(jpg|jpeg|png)$/i.test(file)` used by both
scripts: the filename ends, case-insensitively, in `.jpg`, `.jpeg` or `.png`.
Tested on the reversed lowercased character list so that the anchoring at the
end of the name is explicit. -/
def isImageFile (name : String) : Bool :=
  let lower := name.toList.map Char.toLower
  ".jpg".toList.reverse.isPrefixOf lower.reverse ||
  ".jpeg".toList.reverse.isPrefixOf lower.reverse ||
  ".png".toList.reverse.isPrefixOf lower.reverse

/-- One size/quality preset (`width`, `quality`, filename `suffix`). -/
structure Config where
  width : Nat
  quality : Nat
  suffix : String
deriving DecidableEq, Repr

/-- The value a manifest maps a preset name to: either the WebP/JPEG pair of
output paths, or (packaging pipeline only) the verbatim-copy fallback. -/
inductive PresetOutput where
  | pair (webp jpeg : String)
  | original (p : String)
deriving DecidableEq, Repr

namespace BuildImages

/-- The fixed preset catalog of `build-images.js`, in declaration order. -/
def configs : List (String × Config) :=
  [("mobile", ⟨800, 75, "-mobile"⟩),
   ("tablet", ⟨1200, 80, "-tablet"⟩),
   ("desktop", ⟨1920, 85, "-desktop"⟩),
   ("thumbnail", ⟨300, 70, "-thumb"⟩)]

/-- Trace of one local-optimizer run: shell commands issued in order, output
files written in order, and error messages logged. -/
structure RunState where
  cmds : List String
  files : List String
  log : List String
deriving DecidableEq, Repr

/-- The manifest under construction: source filename, in processing order,
mapped to its preset-name/output association list (JS object insertion
order). -/
abbrev Manifest := List (String × List (String × PresetOutput))

/-- The WebP conversion command string built by `optimizeImage`. -/
def webpCommand (inputPath outputPath : String) (config : Config) : String :=
  "convert \"" ++ inputPath ++ "\" -resize " ++ toString config.width ++
    "x -quality " ++ toString config.quality ++ " -format webp \"" ++ outputPath ++ "\""

/-- The JPEG fallback conversion command string built by `optimizeImage`. -/
def jpegCommand (inputPath outputPath : String) (config : Config) : String :=
  "convert \"" ++ inputPath ++ "\" -resize " ++ toString config.width ++
    "x -quality " ++ toString config.quality ++ " \"" ++ outputPath ++ "\""

/-- The `console.error` message prefix logged on a conversion failure. -/
def errorMsg (filename : String) : String := "Error processing " ++ filename ++ ":"

/-- The WebP output path `<outputDir>/<basename><suffix>.webp`. -/
def webpOut (outputDir filename : String) (config : Config) : String :=
  pathJoin outputDir (nameWithoutExt filename ++ config.suffix ++ ".webp")

/-- The JPEG output path `<outputDir>/<basename><suffix>.jpg`. -/
def jpegOut (outputDir filename : String) (config : Config) : String :=
  pathJoin outputDir (nameWithoutExt filename ++ config.suffix ++ ".jpg")

/-- Embedding of `optimizeImage` from `build-images.js`: run the WebP `convert` command, then
the JPEG one; on the first failure log the error and return `none` (already
written files stay on disk), otherwise return the output-path pair. -/
def optimizeImage (env : String → Bool) (st : RunState)
    (inputPath outputDir filename : String) (config : Config) :
    RunState × Option PresetOutput :=
  let outputPath := webpOut outputDir filename config
  let command := webpCommand inputPath outputPath config
  let st1 : RunState := { st with cmds := st.cmds ++ [command] }
  if env command then
    let st2 : RunState := { st1 with files := st1.files ++ [outputPath] }
    let jpegOutputPath := jpegOut outputDir filename config
    let jpegCmd := jpegCommand inputPath jpegOutputPath config
    let st3 : RunState := { st2 with cmds := st2.cmds ++ [jpegCmd] }
    if env jpegCmd then
      ({ st3 with files := st3.files ++ [jpegOutputPath] },
        some (PresetOutput.pair outputPath jpegOutputPath))
    else
      ({ st3 with log := st3.log ++ [errorMsg filename] }, none)
  else
    ({ st1 with log := st1.log ++ [errorMsg filename] }, none)

/-- The inner `Object.entries(configs).forEach` loop of
`createOptimizedImages`: process one file against a list of presets,
accumulating successful entries in preset order. -/
def processConfigs (env : String → Bool) (inputPath outputBaseDir filename : String) :
    List (String × Config) → RunState → RunState × List (String × PresetOutput)
  | [], st => (st, [])
  | p :: rest, st =>
    let outputDir := pathJoin outputBaseDir p.1
    let r := optimizeImage env st inputPath outputDir filename p.2
    let r2 := processConfigs env inputPath outputBaseDir filename rest r.1
    match r.2 with
    | some result => (r2.1, (p.1, result) :: r2.2)
    | none => r2

/-- The outer `imageFiles.forEach` loop of `createOptimizedImages`: each
filename gets a manifest entry (`results[filename] = {}`) before its presets
are attempted. -/
def processFiles (env : String → Bool) (sourceDir outputBaseDir : String) :
    List String → RunState → RunState × Manifest
  | [], st => (st, [])
  | filename :: rest, st =>
    let inputPath := pathJoin sourceDir filename
    let r1 := processConfigs env inputPath outputBaseDir filename configs st
    let r2 := processFiles env sourceDir outputBaseDir rest r1.1
    (r2.1, (filename, r1.2) :: r2.2)

/-- Embedding of `createOptimizedImages` from `build-images.js`: filter the directory
listing by the image-extension test, process every file against every preset,
then write the manifest to `<outputBaseDir>/image-manifest.json`. -/
def createOptimizedImages (env : String → Bool) (dirListing : List String)
    (sourceDir outputBaseDir : String) : RunState × Manifest :=
  let imageFiles := dirListing.filter isImageFile
  let r := processFiles env sourceDir outputBaseDir imageFiles ⟨[], [], []⟩
  let manifestPath := pathJoin outputBaseDir "image-manifest.json"
  ({ r.1 with files := r.1.files ++ [manifestPath] }, r.2)

/-- Model of `x.toFixed(1)` as a rational: round `x` to one decimal place, ties away
from zero on the magnitude (the ECMAScript `toFixed` rule: a sign is split
off first, then of two equally near candidates the larger is taken). -/
def toFixed1 (x : ℚ) : ℚ :=
  if x < 0 then -((⌊-x * 10 + 1 / 2⌋ : ℚ) / 10) else (⌊x * 10 + 1 / 2⌋ : ℚ) / 10

/-- Total byte size of the image files in the source directory, as summed by
`showSizeComparison` (`sizeOf` is the `fs.statSync(..).size` oracle and
`listDir` the `fs.readdirSync` oracle). -/
def originalTotal (sizeOf : String → Nat) (listDir : String → List String)
    (sourceDir : String) : Nat :=
  (((listDir sourceDir).filter isImageFile).map
    (fun file => sizeOf (pathJoin sourceDir file))).sum

/-- Total byte size of all files across every preset output directory, as
summed by `showSizeComparison`. -/
def optimizedTotal (sizeOf : String → Nat) (listDir : String → List String)
    (outputBaseDir : String) : Nat :=
  (configs.map (fun p =>
    ((listDir (pathJoin outputBaseDir p.1)).map
      (fun file => sizeOf (pathJoin (pathJoin outputBaseDir p.1) file))).sum)).sum

/-- The size-reduction percentage printed by `showSizeComparison`:
`((originalTotalSize - optimizedTotalSize) / originalTotalSize * 100).toFixed(1)`. -/
def showSizeComparison (sizeOf : String → Nat) (listDir : String → List String)
    (sourceDir outputBaseDir : String) : ℚ :=
  let originalTotalSize := originalTotal sizeOf listDir sourceDir
  let optimizedTotalSize := optimizedTotal sizeOf listDir outputBaseDir
  toFixed1 (((originalTotalSize : ℚ) - (optimizedTotalSize : ℚ)) /
    (originalTotalSize : ℚ) * 100)

/-- The size-reduction formula exactly as the specification words it:
`(origBytes - optBytes) / origBytes * 100` rounded to one decimal place. -/
def claimedSizeReduction (origBytes optBytes : Nat) : ℚ :=
  toFixed1 (((origBytes : ℚ) - (optBytes : ℚ)) / (origBytes : ℚ) * 100)

/-- The WebP command `optimizeImage` issues for a given preset directory. -/
def pairWebpCmd (inputPath outputDir filename : String) (config : Config) : String :=
  webpCommand inputPath (webpOut outputDir filename config) config

/-- The JPEG command `optimizeImage` issues for a given preset directory. -/
def pairJpegCmd (inputPath outputDir filename : String) (config : Config) : String :=
  jpegCommand inputPath (jpegOut outputDir filename config) config

/-- Whether both conversions of a (file, preset) pair succeed under the
command oracle. -/
def pairOk (env : String → Bool) (inputPath outputDir filename : String)
    (config : Config) : Bool :=
  env (pairWebpCmd inputPath outputDir filename config) &&
    env (pairJpegCmd inputPath outputDir filename config)

/-- The commands one `optimizeImage` call issues: always the WebP command,
then the JPEG command exactly when the WebP one succeeded. -/
def pairCmds (env : String → Bool) (inputPath outputDir filename : String)
    (config : Config) : List String :=
  pairWebpCmd inputPath outputDir filename config ::
    (if env (pairWebpCmd inputPath outputDir filename config) then
      [pairJpegCmd inputPath outputDir filename config] else [])

/-- The files one `optimizeImage` call leaves on disk. -/
def pairFiles (env : String → Bool) (inputPath outputDir filename : String)
    (config : Config) : List String :=
  if env (pairWebpCmd inputPath outputDir filename config) then
    webpOut outputDir filename config ::
      (if env (pairJpegCmd inputPath outputDir filename config) then
        [jpegOut outputDir filename config] else [])
  else []

/-- The error messages one `optimizeImage` call logs. -/
def pairLog (env : String → Bool) (inputPath outputDir filename : String)
    (config : Config) : List String :=
  if pairOk env inputPath outputDir filename config then [] else [errorMsg filename]

/-- The manifest value one `optimizeImage` call returns. -/
def pairResult (env : String → Bool) (inputPath outputDir filename : String)
    (config : Config) : Option PresetOutput :=
  if pairOk env inputPath outputDir filename config then
    some (PresetOutput.pair (webpOut outputDir filename config)
      (jpegOut outputDir filename config))
  else none

/-- Commands issued while processing one file against a preset list. -/
def cmdsOverConfigs (env : String → Bool) (inputPath outputBaseDir filename : String)
    (cs : List (String × Config)) : List String :=
  cs.flatMap (fun p => pairCmds env inputPath (pathJoin outputBaseDir p.1) filename p.2)

/-- Files written while processing one file against a preset list. -/
def filesOverConfigs (env : String → Bool) (inputPath outputBaseDir filename : String)
    (cs : List (String × Config)) : List String :=
  cs.flatMap (fun p => pairFiles env inputPath (pathJoin outputBaseDir p.1) filename p.2)

/-- Errors logged while processing one file against a preset list. -/
def logOverConfigs (env : String → Bool) (inputPath outputBaseDir filename : String)
    (cs : List (String × Config)) : List String :=
  cs.flatMap (fun p => pairLog env inputPath (pathJoin outputBaseDir p.1) filename p.2)

/-- The manifest entry accumulated for one file: the presets whose pair of
conversions succeeded, in catalog order. -/
def entriesOverConfigs (env : String → Bool) (inputPath outputBaseDir filename : String)
    (cs : List (String × Config)) : List (String × PresetOutput) :=
  cs.filterMap (fun p =>
    (pairResult env inputPath (pathJoin outputBaseDir p.1) filename p.2).map
      (fun r => (p.1, r)))

/-- Commands issued over a whole run, file by file. -/
def cmdsOverFiles (env : String → Bool) (sourceDir outputBaseDir : String)
    (fs : List String) : List String :=
  fs.flatMap (fun f => cmdsOverConfigs env (pathJoin sourceDir f) outputBaseDir f configs)

/-- Files written over a whole run, file by file. -/
def filesOverFiles (env : String → Bool) (sourceDir outputBaseDir : String)
    (fs : List String) : List String :=
  fs.flatMap (fun f => filesOverConfigs env (pathJoin sourceDir f) outputBaseDir f configs)

/-- Errors logged over a whole run, file by file. -/
def logOverFiles (env : String → Bool) (sourceDir outputBaseDir : String)
    (fs : List String) : List String :=
  fs.flatMap (fun f => logOverConfigs env (pathJoin sourceDir f) outputBaseDir f configs)

/-- The manifest of a whole run: one entry per enumerated image file, in
enumeration order. -/
def manifestOver (env : String → Bool) (sourceDir outputBaseDir : String)
    (fs : List String) : Manifest :=
  fs.map (fun f => (f, entriesOverConfigs env (pathJoin sourceDir f) outputBaseDir f configs))

end BuildImages

/-- A command oracle under which every `execSync` call throws. -/
def envFail : String → Bool := fun _ => false

/-- A command oracle under which exactly the mobile-preset WebP conversion of
`a.jpg` (source directory `s`, output root `o`) succeeds and every other
command throws. -/
def envNine : String → Bool := fun s =>
  s == "convert \"s/a.jpg\" -resize 800x -quality 75 -format webp \"o/mobile/a-mobile.webp\""

/-- A command oracle under which every `execSync` call succeeds. -/
def envOk : String → Bool := fun _ => true

/-- A concrete `fs.statSync(..).size` oracle: the source image `s/a.jpg` has
200 bytes, every other file 100 bytes. -/
def sizeOracle : String → Nat := fun p => if p == "s/a.jpg" then 200 else 100

/-- A concrete `fs.readdirSync` oracle: the source directory `s` holds
`a.jpg`, the mobile preset directory holds one optimized file, every other
directory is empty. -/
def listOracle : String → List String := fun d =>
  if d == "s" then ["a.jpg"]
  else if d == "o/mobile" then ["a-mobile.webp"]
  else []

/-- The last character of a string, if any. -/
def strLast (s : String) : Option Char := s.toList.reverse.head?

/-- Leftmost-occurrence replacement on character lists: the semantics of
`s.replace(regex, rep)` for a non-global regex whose pattern is the
all-escaped literal `pat` and whose replacement string `rep` contains no
`$`-substitution pattern.  Scans left to right; at the first position where
`pat` is a prefix of the remaining input, `rep` is inserted and the matched
characters are dropped; if no position matches, the input is returned
unchanged. -/
def replaceFirstL (pat rep : List Char) : List Char → List Char
  | [] => []
  | c :: rest =>
    if pat.isPrefixOf (c :: rest) then rep ++ (c :: rest).drop pat.length
    else c :: replaceFirstL pat rep rest

/-- The function `replaceFirstL` lifted to `String`. -/
def replaceFirstStr (s pat rep : String) : String :=
  String.mk (replaceFirstL pat.toList rep.toList s.toList)

/-- Whether `pat` occurs as a contiguous substring of the input (the
match test of the regex of `updateHtmlForOptimizedImages`). -/
def occursIn (pat : List Char) : List Char → Bool
  | [] => pat.isEmpty
  | c :: rest => pat.isPrefixOf (c :: rest) || occursIn pat rest

namespace BuildCloudflare

/-- The fixed preset catalog of `build-cloudflare.js`, in declaration order
(no `thumbnail` preset). -/
def configs : List (String × Config) :=
  [("mobile", ⟨800, 75, "-mobile"⟩),
   ("tablet", ⟨1200, 80, "-tablet"⟩),
   ("desktop", ⟨1920, 85, "-desktop"⟩)]

/-- Symbolic content of a file in the `dist` tree.  Sharp conversions are
assumed deterministic, so a converted file's bytes are determined by the
source path and the preset's width/quality. -/
inductive FileContent where
  | text (s : String)
  | webpOf (src : String) (config : Config)
  | jpegOf (src : String) (config : Config)
  | copyOf (src : String)
deriving DecidableEq, Repr

/-- The `dist` tree: association list from path to content, in first-write
order. -/
abbrev Fs := List (String × FileContent)

/-- Model of `fs.writeFileSync` on the modelled tree: overwrite the content
if the path already exists, otherwise append a new entry. -/
def writeFs (fs : Fs) (p : String) (c : FileContent) : Fs :=
  if fs.any (fun e => e.1 == p) then
    fs.map (fun e => if e.1 == p then (p, c) else e)
  else fs ++ [(p, c)]

/-- Model of `fs.readFileSync` on the modelled tree. -/
def readFs (fs : Fs) (p : String) : Option FileContent :=
  (fs.find? (fun e => e.1 == p)).map Prod.snd

/-- Success oracles for the two Sharp conversions of `optimizeWithSharp`
(judging input path, output path and preset) plus the `require('sharp')`
availability probe. -/
structure SharpEnv where
  available : Bool
  webpOk : String → String → Config → Bool
  jpegOk : String → String → Config → Bool

/-- Embedding of `optimizeWithSharp` from `build-cloudflare.js`: write the WebP then the
JPEG variant into `outputDir`; if either conversion throws, fall back to
copying the original file verbatim into `outputDir` and report
`{original: path}` (a WebP already written before a JPEG failure stays). -/
def optimizeWithSharp (env : SharpEnv) (fs : Fs)
    (inputPath outputDir filename : String) (config : Config) : Fs × PresetOutput :=
  let webpOutput := BuildImages.webpOut outputDir filename config
  let jpegOutput := BuildImages.jpegOut outputDir filename config
  if env.webpOk inputPath webpOutput config then
    let fs1 := writeFs fs webpOutput (FileContent.webpOf inputPath config)
    if env.jpegOk inputPath jpegOutput config then
      (writeFs fs1 jpegOutput (FileContent.jpegOf inputPath config),
        PresetOutput.pair webpOutput jpegOutput)
    else
      let fallbackOutput := pathJoin outputDir filename
      (writeFs fs1 fallbackOutput (FileContent.copyOf inputPath),
        PresetOutput.original fallbackOutput)
  else
    let fallbackOutput := pathJoin outputDir filename
    (writeFs fs fallbackOutput (FileContent.copyOf inputPath),
      PresetOutput.original fallbackOutput)

/-- The exact literal fragment matched by the regex of
`updateHtmlForOptimizedImages` (all regex metacharacters in the source are
escaped, so the pattern is this literal string). -/
def imgFragment : String :=
  "slide.innerHTML = `<div class=\"slide-inner\"><img src=\"pages/page$\x7bi\x7d.jpg\" /></div>`;"

/-- The replacement written by `updateHtmlForOptimizedImages`: the six-source
`<picture>` block, byte-for-byte as in the source's template literal. -/
def pictureBlock : String :=
  "slide.innerHTML = `<div class=\"slide-inner\">\n        <picture>\n          <source media=\"(max-width: 768px)\" srcset=\"pages/page$\x7bi\x7d-mobile.webp\" type=\"image/webp\">\n          <source media=\"(max-width: 1024px)\" srcset=\"pages/page$\x7bi\x7d-tablet.webp\" type=\"image/webp\">\n          <source srcset=\"pages/page$\x7bi\x7d-desktop.webp\" type=\"image/webp\">\n          <source media=\"(max-width: 768px)\" srcset=\"pages/page$\x7bi\x7d-mobile.jpg\">\n          <source media=\"(max-width: 1024px)\" srcset=\"pages/page$\x7bi\x7d-tablet.jpg\">\n          <img src=\"pages/page$\x7bi\x7d-desktop.jpg\" />\n        </picture>\n      </div>`;"

/-- Embedding of `updateHtmlForOptimizedImages` as a transformation of the HTML text: when
the optimize path was taken, replace the first occurrence of the literal
fragment (a no-op if it does not occur); otherwise leave the HTML untouched.
The file is rewritten in both cases. -/
def updateHtmlForOptimizedImages (useOptimized : Bool) (html : String) : String :=
  if useOptimized then replaceFirstStr html imgFragment pictureBlock else html

/-- The fixed `_headers` file content written by `createHeadersFile`. -/
def headersContent : String :=
  "# Cache images for 1 year\n/pages/*\n  Cache-Control: public, max-age=31536000, immutable\n\n# Cache HTML for 1 hour\n/*.html\n  Cache-Control: public, max-age=3600\n\n# Enable compression\n/*\n  X-Content-Type-Options: nosniff\n  X-Frame-Options: DENY\n  X-XSS-Protection: 1; mode=block\n"

/-- The build directory `./dist` of `buildForCloudflare`. -/
def buildDir : String := "./dist"

/-- The source directory `./flipbook-v2` of `buildForCloudflare`. -/
def sourceDir : String := "./flipbook-v2"

/-- Model of the recursive `fs.rmSync(buildDir)` followed by re-creation: the
previous `dist` tree is discarded entirely. -/
def rmRf (_dist : Fs) : Fs := []

/-- The nested Sharp loop of `buildForCloudflare`: for each image file, for
each preset in catalog order, run `optimizeWithSharp` (its returned value is
discarded; only its filesystem writes matter). -/
def processImages (env : SharpEnv) (pagesDir optimizedDir : String)
    (imageFiles : List String) (fs0 : Fs) : Fs :=
  imageFiles.foldl (fun fsA filename =>
    configs.foldl (fun fsB p =>
      (optimizeWithSharp env fsB (pathJoin pagesDir filename) optimizedDir filename p.2).1)
      fsA) fs0

/-- The `updateHtmlForOptimizedImages(buildDir, useSharp)` step acting on the
`dist` tree: read `dist/index.html`, transform, write back. -/
def updateHtmlFs (fs : Fs) (useOptimized : Bool) : Fs :=
  match readFs fs (pathJoin buildDir "index.html") with
  | some (FileContent.text html) =>
    writeFs fs (pathJoin buildDir "index.html")
      (FileContent.text (updateHtmlForOptimizedImages useOptimized html))
  | _ => fs

/-- Embedding of `buildForCloudflare` from `build-cloudflare.js`: clean `dist`, copy
`index.html`, produce optimized images (or verbatim copies when Sharp is
unavailable), rewrite the HTML, and write `_headers`.  `indexHtml` is the
content of `flipbook-v2/index.html` and `pagesListing` the directory listing
of `flipbook-v2/pages`. -/
def buildForCloudflare (env : SharpEnv) (indexHtml : String)
    (pagesListing : List String) (dist0 : Fs) : Fs :=
  let dist := rmRf dist0
  let dist := writeFs dist (pathJoin buildDir "index.html") (FileContent.text indexHtml)
  let optimizedDir := pathJoin buildDir "pages"
  let pagesDir := pathJoin sourceDir "pages"
  let imageFiles := pagesListing.filter isImageFile
  let dist :=
    if env.available then processImages env pagesDir optimizedDir imageFiles dist
    else imageFiles.foldl (fun d filename =>
      writeFs d (pathJoin optimizedDir filename)
        (FileContent.copyOf (pathJoin pagesDir filename))) dist
  let dist := updateHtmlFs dist env.available
  writeFs dist (pathJoin buildDir "_headers") (FileContent.text headersContent)

end BuildCloudflare

/-- A Sharp environment where the library is available and every conversion
succeeds. -/
def envSharpAll : BuildCloudflare.SharpEnv :=
  ⟨true, fun _ _ _ => true, fun _ _ _ => true⟩

/-- A Sharp environment where the library is available, WebP conversions
succeed and every JPEG conversion throws, so every (file, preset) pair takes
the per-file fallback copy. -/
def envSharpNoJpeg : BuildCloudflare.SharpEnv :=
  ⟨true, fun _ _ _ => true, fun _ _ _ => false⟩

namespace BuildImages

/-- One `optimizeImage` call, described by its pure commands/files/log/result
traces. -/
theorem optimizeImage_eq (env : String → Bool) (st : RunState)
    (inputPath outputDir filename : String) (config : Config) :
    optimizeImage env st inputPath outputDir filename config =
      ({ cmds := st.cmds ++ pairCmds env inputPath outputDir filename config,
         files := st.files ++ pairFiles env inputPath outputDir filename config,
         log := st.log ++ pairLog env inputPath outputDir filename config },
       pairResult env inputPath outputDir filename config) := by
  by_cases hw : env (webpCommand inputPath (webpOut outputDir filename config) config) = true
  · by_cases hj : env (jpegCommand inputPath (jpegOut outputDir filename config) config) = true
    · simp [optimizeImage, pairCmds, pairFiles, pairLog, pairResult, pairOk,
        pairWebpCmd, pairJpegCmd, hw, hj]
    · simp [optimizeImage, pairCmds, pairFiles, pairLog, pairResult, pairOk,
        pairWebpCmd, pairJpegCmd, hw, hj]
  · simp [optimizeImage, pairCmds, pairFiles, pairLog, pairResult, pairOk,
      pairWebpCmd, pairJpegCmd, hw]

/-- The per-file preset loop, described by its pure traces. -/
theorem processConfigs_eq (env : String → Bool) (inputPath outputBaseDir filename : String)
    (cs : List (String × Config)) : ∀ st : RunState,
    processConfigs env inputPath outputBaseDir filename cs st =
      ({ cmds := st.cmds ++ cmdsOverConfigs env inputPath outputBaseDir filename cs,
         files := st.files ++ filesOverConfigs env inputPath outputBaseDir filename cs,
         log := st.log ++ logOverConfigs env inputPath outputBaseDir filename cs },
       entriesOverConfigs env inputPath outputBaseDir filename cs) := by
  induction cs with
  | nil =>
    intro st
    simp [processConfigs, cmdsOverConfigs, filesOverConfigs, logOverConfigs,
      entriesOverConfigs]
  | cons p rest ih =>
    intro st
    simp only [processConfigs, optimizeImage_eq, ih]
    cases hok : pairResult env inputPath (pathJoin outputBaseDir p.1) filename p.2 with
    | none =>
      simp [cmdsOverConfigs, filesOverConfigs, logOverConfigs, entriesOverConfigs,
        List.flatMap_cons, List.filterMap_cons, hok, List.append_assoc]
    | some r =>
      simp [cmdsOverConfigs, filesOverConfigs, logOverConfigs, entriesOverConfigs,
        List.flatMap_cons, List.filterMap_cons, hok, List.append_assoc]

/-- The per-run file loop, described by its pure traces. -/
theorem processFiles_eq (env : String → Bool) (sourceDir outputBaseDir : String)
    (fs : List String) : ∀ st : RunState,
    processFiles env sourceDir outputBaseDir fs st =
      ({ cmds := st.cmds ++ cmdsOverFiles env sourceDir outputBaseDir fs,
         files := st.files ++ filesOverFiles env sourceDir outputBaseDir fs,
         log := st.log ++ logOverFiles env sourceDir outputBaseDir fs },
       manifestOver env sourceDir outputBaseDir fs) := by
  induction fs with
  | nil =>
    intro st
    simp [processFiles, cmdsOverFiles, filesOverFiles, logOverFiles, manifestOver]
  | cons f rest ih =>
    intro st
    simp [processFiles, processConfigs_eq, ih, cmdsOverFiles, filesOverFiles,
      logOverFiles, manifestOver, List.flatMap_cons, List.append_assoc]

/-- A full `createOptimizedImages` run, described by its pure traces. -/
theorem createOptimizedImages_eq (env : String → Bool) (dirListing : List String)
    (sourceDir outputBaseDir : String) :
    createOptimizedImages env dirListing sourceDir outputBaseDir =
      ({ cmds := cmdsOverFiles env sourceDir outputBaseDir (dirListing.filter isImageFile),
         files := filesOverFiles env sourceDir outputBaseDir (dirListing.filter isImageFile)
           ++ [pathJoin outputBaseDir "image-manifest.json"],
         log := logOverFiles env sourceDir outputBaseDir (dirListing.filter isImageFile) },
       manifestOver env sourceDir outputBaseDir (dirListing.filter isImageFile)) := by
  simp [createOptimizedImages, processFiles_eq]

/-- In a pair list with no duplicate keys, a key determines its value. -/
theorem nodup_keys_value_eq {l : List (String × Config)} (h : (l.map Prod.fst).Nodup)
    {k : String} {a b : Config} (ha : (k, a) ∈ l) (hb : (k, b) ∈ l) : a = b := by
  induction l with
  | nil => cases ha
  | cons q rest ih =>
    rw [List.map_cons, List.nodup_cons] at h
    rcases List.mem_cons.mp ha with ha1 | ha2 <;>
      rcases List.mem_cons.mp hb with hb1 | hb2
    · rw [← ha1] at hb1
      exact (Prod.ext_iff.mp hb1).2.symm
    · exfalso
      have hk : k = q.1 := congrArg Prod.fst ha1
      exact h.1 (hk ▸ List.mem_map_of_mem Prod.fst hb2)
    · exfalso
      have hk : k = q.1 := congrArg Prod.fst hb1
      exact h.1 (hk ▸ List.mem_map_of_mem Prod.fst ha2)
    · exact ih h.2 ha2 hb2

end BuildImages

/-- A list `isPrefixOf`-prefixes itself followed by anything. -/
theorem isPrefixOf_append_self (l t : List Char) : l.isPrefixOf (l ++ t) = true := by
  induction l with
  | nil => cases t <;> rfl
  | cons c cs ih => simp [List.isPrefixOf, ih]

/-- Unfolding `replaceFirstL` at a matching position. -/
theorem replaceFirstL_cons_pos (pat rep : List Char) (c : Char) (rest : List Char)
    (h : pat.isPrefixOf (c :: rest) = true) :
    replaceFirstL pat rep (c :: rest) = rep ++ (c :: rest).drop pat.length := by
  rw [replaceFirstL, h]
  simp

/-- Unfolding `replaceFirstL` at a non-matching position. -/
theorem replaceFirstL_cons_neg (pat rep : List Char) (c : Char) (rest : List Char)
    (h : pat.isPrefixOf (c :: rest) = false) :
    replaceFirstL pat rep (c :: rest) = c :: replaceFirstL pat rep rest := by
  rw [replaceFirstL, h]
  simp

/-- If the pattern occurs nowhere in the input, `replaceFirstL` returns the
input unchanged. -/
theorem replaceFirstL_of_not_occurs (pat rep : List Char) (s : List Char)
    (h : occursIn pat s = false) : replaceFirstL pat rep s = s := by
  induction s with
  | nil => rfl
  | cons c rest ih =>
    rw [occursIn] at h
    rcases Bool.or_eq_false_iff.mp h with ⟨h1, h2⟩
    simp [replaceFirstL, h1, ih h2]

/-- The function `replaceFirstL` replaces exactly the occurrence at position `a.length`
when no earlier position matches: everything after the matched occurrence,
including any later occurrences, is copied verbatim. -/
theorem replaceFirstL_first (pat rep b : List Char) (hp : pat ≠ []) :
    ∀ a : List Char,
    (∀ i, i < a.length → ¬ (pat.isPrefixOf ((a ++ (pat ++ b)).drop i) = true)) →
    replaceFirstL pat rep (a ++ (pat ++ b)) = a ++ (rep ++ b) := by
  intro a
  induction a with
  | nil =>
    intro _
    obtain ⟨p, ps, hpat⟩ : ∃ p ps, pat = p :: ps := by
      cases pat with
      | nil => exact absurd rfl hp
      | cons p ps => exact ⟨p, ps, rfl⟩
    subst hpat
    simp only [List.nil_append]
    rw [List.cons_append]
    have hpre : (p :: ps).isPrefixOf (p :: (ps ++ b)) = true := by
      rw [← List.cons_append]
      exact isPrefixOf_append_self (p :: ps) b
    rw [replaceFirstL_cons_pos _ _ _ _ hpre, ← List.cons_append, List.drop_left]
  | cons c a' ih =>
    intro h
    have h0 := h 0 (Nat.succ_pos _)
    simp only [List.drop_zero, List.cons_append] at h0
    have h0' : pat.isPrefixOf (c :: (a' ++ (pat ++ b))) = false := by
      cases hx : pat.isPrefixOf (c :: (a' ++ (pat ++ b)))
      · rfl
      · exact absurd hx h0
    rw [List.cons_append, replaceFirstL_cons_neg _ _ _ _ h0', List.cons_append]
    refine congrArg (c :: ·) (ih ?_)
    intro i hi
    simpa only [List.cons_append, List.drop_succ_cons] using
      h (i + 1) (Nat.succ_lt_succ hi)

/-- Appending a nonempty string with a known last character fixes the last
character of the result. -/
theorem strLast_append (a b : String) (c : Char) (h : strLast b = some c) :
    strLast (a ++ b) = some c := by
  unfold strLast at h ⊢
  have hd : (a ++ b).toList = a.toList ++ b.toList := by simp [String.toList]
  rw [hd, List.reverse_append]
  cases hb : b.toList.reverse with
  | nil => rw [hb] at h; cases h
  | cons x xs =>
    rw [hb] at h
    rw [List.cons_append]
    simpa using h

/-- The last character of `pathJoin a b` is that of `b` when `b` is
nonempty. -/
theorem strLast_pathJoin (a b : String) (c : Char) (h : strLast b = some c) :
    strLast (pathJoin a b) = some c := strLast_append (a ++ "/") b c h

/-- A WebP output path ends in `p`. -/
theorem strLast_webpOut (dir f : String) (cfg : Config) :
    strLast (BuildImages.webpOut dir f cfg) = some 'p' := by
  unfold BuildImages.webpOut
  refine strLast_pathJoin _ _ _ (strLast_append _ ".webp" _ (by decide))

/-- A JPEG output path ends in `g`. -/
theorem strLast_jpegOut (dir f : String) (cfg : Config) :
    strLast (BuildImages.jpegOut dir f cfg) = some 'g' := by
  unfold BuildImages.jpegOut
  refine strLast_pathJoin _ _ _ (strLast_append _ ".jpg" _ (by decide))

/-- The head of a list with a cons prefix. -/
theorem head_of_isPrefixOf {c : Char} {p l : List Char}
    (h : (c :: p).isPrefixOf l = true) : l.head? = some c := by
  cases l with
  | nil => cases h
  | cons x xs =>
    obtain ⟨h1, _⟩ : c = x ∧ p.isPrefixOf xs = true := by
      simpa [List.isPrefixOf] using h
    simp [h1]

/-- Taking `head?` commutes with `map`. -/
theorem head_opt_map (g : Char → Char) (l : List Char) :
    (l.map g).head? = l.head?.map g := by
  cases l <;> rfl

/-- An image filename's last character lowercases to `g` (all three accepted
extensions end in `g`). -/
theorem isImageFile_strLast {f : String} (h : isImageFile f = true) :
    ∃ c, strLast f = some c ∧ Char.toLower c = 'g' := by
  unfold isImageFile at h
  have hhead : ((f.toList.map Char.toLower).reverse).head? = some 'g' := by
    rcases Bool.or_eq_true_iff.mp h with h1 | h2
    · rcases Bool.or_eq_true_iff.mp h1 with ha | hb
      · exact head_of_isPrefixOf (p := ['p', 'j', '.']) ha
      · exact head_of_isPrefixOf (p := ['e', 'p', 'j', '.']) hb
    · exact head_of_isPrefixOf (p := ['n', 'p', '.']) h2
  rw [← List.map_reverse, head_opt_map] at hhead
  cases hx : f.toList.reverse.head? with
  | none => rw [hx] at hhead; cases hhead
  | some c =>
    rw [hx] at hhead
    exact ⟨c, hx, Option.some.inj hhead⟩

/-- A character lowercasing to `g` is not `n`. -/
theorem ne_n_of_toLower_g {c : Char} (h : Char.toLower c = 'g') : c ≠ 'n' := by
  intro hc
  subst hc
  exact absurd h (by decide)

namespace BuildCloudflare

/-- A path present after a `writeFs` is the written path or was already
present. -/
theorem writeFs_fst {fs : Fs} {p : String} {c : FileContent} {q : String}
    (hq : q ∈ (writeFs fs p c).map Prod.fst) : q = p ∨ q ∈ fs.map Prod.fst := by
  unfold writeFs at hq
  split at hq
  · rw [List.map_map] at hq
    rcases List.mem_map.mp hq with ⟨e, he, hqe⟩
    by_cases hep : (e.1 == p) = true
    · left
      rw [← hqe]
      simp [Function.comp, hep]
    · right
      rw [← hqe]
      simp only [Function.comp, hep, if_neg, Bool.false_eq_true, if_false]
      exact List.mem_map_of_mem Prod.fst he
  · rw [List.map_append] at hq
    rcases List.mem_append.mp hq with h1 | h2
    · exact Or.inr h1
    · exact Or.inl (by simpa using h2)

/-- The written path is always present after a `writeFs`. -/
theorem writeFs_mem (fs : Fs) (p : String) (c : FileContent) :
    p ∈ (writeFs fs p c).map Prod.fst := by
  unfold writeFs
  split
  · rename_i hany
    rcases List.any_eq_true.mp hany with ⟨e, he, hep⟩
    rw [List.map_map]
    refine List.mem_map.mpr ⟨e, he, ?_⟩
    simp only [Function.comp_apply, hep, if_pos]
  · rw [List.map_append]
    refine List.mem_append.mpr (Or.inr ?_)
    simp

/-- The paths a single `optimizeWithSharp` call may add. -/
theorem optimizeWithSharp_fst {env : SharpEnv} {fs : Fs}
    {inputPath outputDir filename : String} {config : Config} {q : String}
    (hq : q ∈ ((optimizeWithSharp env fs inputPath outputDir filename config).1).map Prod.fst) :
    q ∈ fs.map Prod.fst ∨ q = BuildImages.webpOut outputDir filename config ∨
      q = BuildImages.jpegOut outputDir filename config ∨
      q = pathJoin outputDir filename := by
  simp only [optimizeWithSharp] at hq
  by_cases hw : env.webpOk inputPath (BuildImages.webpOut outputDir filename config) config = true
  · rw [if_pos hw] at hq
    by_cases hj : env.jpegOk inputPath (BuildImages.jpegOut outputDir filename config) config = true
    · rw [if_pos hj] at hq
      rcases writeFs_fst hq with h | h
      · exact Or.inr (Or.inr (Or.inl h))
      · rcases writeFs_fst h with h' | h'
        · exact Or.inr (Or.inl h')
        · exact Or.inl h'
    · rw [if_neg hj] at hq
      rcases writeFs_fst hq with h | h
      · exact Or.inr (Or.inr (Or.inr h))
      · rcases writeFs_fst h with h' | h'
        · exact Or.inr (Or.inl h')
        · exact Or.inl h'
  · rw [if_neg hw] at hq
    rcases writeFs_fst hq with h | h
    · exact Or.inr (Or.inr (Or.inr h))
    · exact Or.inl h

/-- The inner preset fold of `processImages` preserves the invariant that no
path in the tree ends in `n`. -/
theorem foldl_configs_good (env : SharpEnv) (pagesDir optimizedDir f : String)
    (hf : isImageFile f = true) :
    ∀ (cs : List (String × Config)) (fs0 : Fs),
    (∀ q ∈ fs0.map Prod.fst, strLast q ≠ some 'n') →
    ∀ q ∈ ((cs.foldl (fun fsB p =>
      (optimizeWithSharp env fsB (pathJoin pagesDir f) optimizedDir f p.2).1) fs0).map Prod.fst),
    strLast q ≠ some 'n' := by
  intro cs
  induction cs with
  | nil => intro fs0 hinv q hq; exact hinv q (by simpa using hq)
  | cons p rest ih =>
    intro fs0 hinv q hq
    rw [List.foldl_cons] at hq
    refine ih _ ?_ q hq
    intro q' hq'
    rcases optimizeWithSharp_fst hq' with h | h | h | h
    · exact hinv q' h
    · rw [h, strLast_webpOut]
      decide
    · rw [h, strLast_jpegOut]
      decide
    · rw [h]
      obtain ⟨c, hc, hg⟩ := isImageFile_strLast hf
      rw [strLast_pathJoin _ _ _ hc]
      intro hEq
      exact ne_n_of_toLower_g hg (Option.some.inj hEq)

/-- The loop `processImages` preserves the no-path-ends-in-`n` invariant. -/
theorem processImages_good (env : SharpEnv) (pagesDir optimizedDir : String) :
    ∀ (files : List String) (fs0 : Fs),
    (∀ f ∈ files, isImageFile f = true) →
    (∀ q ∈ fs0.map Prod.fst, strLast q ≠ some 'n') →
    ∀ q ∈ (processImages env pagesDir optimizedDir files fs0).map Prod.fst,
    strLast q ≠ some 'n' := by
  intro files
  induction files with
  | nil => intro fs0 _ hinv q hq; exact hinv q (by simpa [processImages] using hq)
  | cons f rest ih =>
    intro fs0 hfiles hinv q hq
    have hstep := foldl_configs_good env pagesDir optimizedDir f
      (hfiles f (List.mem_cons_self f rest)) configs fs0 hinv
    exact ih _ (fun g hg => hfiles g (List.mem_cons_of_mem f hg)) hstep q
      (by simpa [processImages, List.foldl_cons] using hq)

/-- The Sharp-unavailable verbatim-copy fold preserves the invariant. -/
theorem foldl_copy_good (pagesDir optimizedDir : String) :
    ∀ (files : List String) (fs0 : Fs),
    (∀ f ∈ files, isImageFile f = true) →
    (∀ q ∈ fs0.map Prod.fst, strLast q ≠ some 'n') →
    ∀ q ∈ ((files.foldl (fun d filename =>
      writeFs d (pathJoin optimizedDir filename)
        (FileContent.copyOf (pathJoin pagesDir filename))) fs0).map Prod.fst),
    strLast q ≠ some 'n' := by
  intro files
  induction files with
  | nil => intro fs0 _ hinv q hq; exact hinv q (by simpa using hq)
  | cons f rest ih =>
    intro fs0 hfiles hinv q hq
    rw [List.foldl_cons] at hq
    refine ih _ (fun g hg => hfiles g (List.mem_cons_of_mem f hg)) ?_ q hq
    intro q' hq'
    rcases writeFs_fst hq' with h | h
    · rw [h]
      obtain ⟨c, hc, hg⟩ := isImageFile_strLast (hfiles f (List.mem_cons_self f rest))
      rw [strLast_pathJoin _ _ _ hc]
      intro hEq
      exact ne_n_of_toLower_g hg (Option.some.inj hEq)
    · exact hinv q' h

/-- The step `updateHtmlFs` only ever writes `dist/index.html`. -/
theorem updateHtmlFs_fst {fs : Fs} {useOptimized : Bool} {q : String}
    (hq : q ∈ (updateHtmlFs fs useOptimized).map Prod.fst) :
    q = pathJoin buildDir "index.html" ∨ q ∈ fs.map Prod.fst := by
  unfold updateHtmlFs at hq
  split at hq
  · exact writeFs_fst hq
  · exact Or.inr hq

/-- No path ever written by `buildForCloudflare` ends in the character `n`
(`index.html` ends in `l`, `_headers` in `s`, generated variants in `p` or
`g`, and verbatim copies keep an image extension). -/
theorem buildForCloudflare_good (env : SharpEnv) (indexHtml : String)
    (pagesListing : List String) (dist0 : Fs) :
    ∀ q ∈ (buildForCloudflare env indexHtml pagesListing dist0).map Prod.fst,
    strLast q ≠ some 'n' := by
  intro q hq
  simp only [buildForCloudflare, rmRf] at hq
  rcases writeFs_fst hq with h | h
  · rw [h, strLast_pathJoin _ _ 's' (by decide)]
    decide
  · rcases updateHtmlFs_fst h with h1 | h1
    · rw [h1, strLast_pathJoin _ _ 'l' (by decide)]
      decide
    · have hbase : ∀ q' ∈ ((writeFs ([] : Fs) (pathJoin buildDir "index.html")
        (FileContent.text indexHtml)).map Prod.fst), strLast q' ≠ some 'n' := by
        intro q' hq'
        have hq'' : q' = pathJoin buildDir "index.html" := by simpa [writeFs] using hq'
        rw [hq'', strLast_pathJoin _ _ 'l' (by decide)]
        decide
      have hfiles : ∀ f ∈ pagesListing.filter isImageFile, isImageFile f = true :=
        fun f hf => (List.mem_filter.mp hf).2
      cases havail : env.available
      · rw [havail] at h1
        simp only [Bool.false_eq_true, if_false] at h1
        exact foldl_copy_good _ _ _ _ hfiles hbase q h1
      · rw [havail] at h1
        simp only [if_true] at h1
        exact processImages_good _ _ _ _ _ hfiles hbase q h1

end BuildCloudflare

/-- Claim C7: the preset catalogs are fixed constants — the local optimizer
has exactly mobile(800,75,-mobile), tablet(1200,80,-tablet),
desktop(1920,85,-desktop), thumbnail(300,70,-thumb); the packaging pipeline
has exactly the first three and no thumbnail preset. -/
theorem C7_preset_catalogs :
    BuildImages.configs =
      [("mobile", ⟨800, 75, "-mobile"⟩), ("tablet", ⟨1200, 80, "-tablet"⟩),
       ("desktop", ⟨1920, 85, "-desktop"⟩), ("thumbnail", ⟨300, 70, "-thumb"⟩)] ∧
    BuildCloudflare.configs =
      [("mobile", ⟨800, 75, "-mobile"⟩), ("tablet", ⟨1200, 80, "-tablet"⟩),
       ("desktop", ⟨1920, 85, "-desktop"⟩)] ∧
    "thumbnail" ∉ BuildCloudflare.configs.map Prod.fst := by
  refine ⟨rfl, rfl, ?_⟩
  decide

/-- Claim C5: running the packaging pipeline twice in succession over an
unchanged source yields a dist tree (file set and contents, including
`index.html` and `_headers`) identical to a single run — the pipeline removes
any existing dist first, so its output does not depend on the previous
dist. -/
theorem C5_idempotent (env : BuildCloudflare.SharpEnv) (indexHtml : String)
    (pagesListing : List String) (dist0 : BuildCloudflare.Fs) :
    BuildCloudflare.buildForCloudflare env indexHtml pagesListing
        (BuildCloudflare.buildForCloudflare env indexHtml pagesListing dist0) =
      BuildCloudflare.buildForCloudflare env indexHtml pagesListing dist0 := by
  simp only [BuildCloudflare.buildForCloudflare, BuildCloudflare.rmRf]

/-- Claim C1 counterexample: with every conversion failing, the single image
file still appears as a manifest key, mapped to the empty object — contrary
to the claim that a filename with all presets failing is entirely absent. -/
theorem C1_counterexample :
    (BuildImages.createOptimizedImages envFail ["a.jpg"] "s" "o").2
      = [("a.jpg", [])] := by
  decide

/-- Claim C1 (amended): the manifest's top-level keys equal exactly the set
of ALL enumerated image files, in listing order; a file for which every
preset fails still appears, mapped to the empty object. -/
theorem C1_manifest_keys (env : String → Bool) (dirListing : List String)
    (sourceDir outputBaseDir : String) :
    ((BuildImages.createOptimizedImages env dirListing sourceDir outputBaseDir).2).map Prod.fst
      = dirListing.filter isImageFile := by
  rw [BuildImages.createOptimizedImages_eq]
  simp [BuildImages.manifestOver, List.map_map, Function.comp_def]

/-- Claim C2: on the optimize path, the HTML rewrite replaces the exact
literal fragment (at its first occurrence) with the six-source picture
block, and any input not containing the fragment is written back byte-for-
byte unchanged. -/
theorem C2_html_rewrite (html : String) :
    (∀ a b : List Char,
      html.toList = a ++ (BuildCloudflare.imgFragment.toList ++ b) →
      (∀ i, i < a.length →
        ¬ (BuildCloudflare.imgFragment.toList.isPrefixOf
            ((a ++ (BuildCloudflare.imgFragment.toList ++ b)).drop i) = true)) →
      (BuildCloudflare.updateHtmlForOptimizedImages true html).toList
        = a ++ (BuildCloudflare.pictureBlock.toList ++ b)) ∧
    (occursIn BuildCloudflare.imgFragment.toList html.toList = false →
      BuildCloudflare.updateHtmlForOptimizedImages true html = html) := by
  constructor
  · intro a b hsplit hfirst
    show (replaceFirstStr html BuildCloudflare.imgFragment BuildCloudflare.pictureBlock).toList = _
    show replaceFirstL BuildCloudflare.imgFragment.toList BuildCloudflare.pictureBlock.toList
      html.toList = _
    rw [hsplit]
    exact replaceFirstL_first _ _ _ (by decide) a hfirst
  · intro hocc
    show replaceFirstStr html BuildCloudflare.imgFragment BuildCloudflare.pictureBlock = html
    unfold replaceFirstStr
    rw [replaceFirstL_of_not_occurs _ _ _ hocc]
    rfl

/-- Concrete instance of C2: the fragment alone rewrites to the picture
block, and an unrelated document is untouched. -/
theorem C2_html_rewrite_witness :
    ((BuildCloudflare.updateHtmlForOptimizedImages true BuildCloudflare.imgFragment).toList
      = [] ++ (BuildCloudflare.pictureBlock.toList ++ [])) ∧
    BuildCloudflare.updateHtmlForOptimizedImages true "<html></html>" = "<html></html>" :=
  ⟨(C2_html_rewrite BuildCloudflare.imgFragment).1 [] [] (by simp) (by decide),
   (C2_html_rewrite "<html></html>").2 (by decide)⟩

/-- Claim C10 (implicit): when the fragment occurs more than once, only the
first occurrence is replaced; the rest of the document — including every
later occurrence, all of `b` here — is written out verbatim. -/
theorem C10_first_occurrence_only (a b : List Char)
    (hfirst : ∀ i, i < a.length →
      ¬ (BuildCloudflare.imgFragment.toList.isPrefixOf
          ((a ++ (BuildCloudflare.imgFragment.toList ++ b)).drop i) = true))
    (hagain : occursIn BuildCloudflare.imgFragment.toList b = true) :
    (BuildCloudflare.updateHtmlForOptimizedImages true
        (String.mk (a ++ (BuildCloudflare.imgFragment.toList ++ b)))).toList
      = a ++ (BuildCloudflare.pictureBlock.toList ++ b) := by
  have _unused := hagain
  show replaceFirstL BuildCloudflare.imgFragment.toList BuildCloudflare.pictureBlock.toList
      (a ++ (BuildCloudflare.imgFragment.toList ++ b)) = _
  exact replaceFirstL_first _ _ _ (by decide) a hfirst

/-- Concrete instance of C10: a document that is the fragment twice in a row
keeps its second copy verbatim. -/
theorem C10_first_occurrence_only_witness :
    (BuildCloudflare.updateHtmlForOptimizedImages true
        (String.mk ([] ++ (BuildCloudflare.imgFragment.toList
          ++ BuildCloudflare.imgFragment.toList)))).toList
      = [] ++ (BuildCloudflare.pictureBlock.toList ++ BuildCloudflare.imgFragment.toList) :=
  C10_first_occurrence_only [] BuildCloudflare.imgFragment.toList (by decide) (by decide)

/-- Claim C6: over a run of the local optimizer, the command trace equals
exactly one WebP attempt per (file, preset) pair in order, plus one JPEG
attempt after each WebP success — no pair is skipped (no abort) and none is
retried; the manifest is still written at the end (the run's last file); and
a failing pair has its error logged and its entry omitted from its file's
manifest entry. -/
theorem C6_failure_handling (env : String → Bool) (dirListing : List String)
    (sourceDir outputBaseDir : String) :
    (BuildImages.createOptimizedImages env dirListing sourceDir outputBaseDir).1.cmds
      = BuildImages.cmdsOverFiles env sourceDir outputBaseDir (dirListing.filter isImageFile) ∧
    ((BuildImages.createOptimizedImages env dirListing sourceDir outputBaseDir).1.files).getLast?
      = some (pathJoin outputBaseDir "image-manifest.json") ∧
    (∀ fname entry,
      (fname, entry) ∈ (BuildImages.createOptimizedImages env dirListing sourceDir outputBaseDir).2 →
      ∀ presetName config, (presetName, config) ∈ BuildImages.configs →
      BuildImages.pairOk env (pathJoin sourceDir fname) (pathJoin outputBaseDir presetName)
        fname config = false →
      (∀ v, (presetName, v) ∉ entry) ∧
        BuildImages.errorMsg fname ∈
          (BuildImages.createOptimizedImages env dirListing sourceDir outputBaseDir).1.log) := by
  rw [BuildImages.createOptimizedImages_eq]
  refine ⟨rfl, List.getLast?_concat _, ?_⟩
  intro fname entry hmem presetName config hcfg hfail
  rcases List.mem_map.mp hmem with ⟨f, hf, hfe⟩
  have hf1 : f = fname := congrArg Prod.fst hfe
  have hf2 : BuildImages.entriesOverConfigs env (pathJoin sourceDir f) outputBaseDir f
      BuildImages.configs = entry := congrArg Prod.snd hfe
  subst hf1
  constructor
  · intro v hv
    rw [← hf2] at hv
    rcases List.mem_filterMap.mp hv with ⟨p, hp, hpv⟩
    cases hres : BuildImages.pairResult env (pathJoin sourceDir f)
        (pathJoin outputBaseDir p.1) f p.2 with
    | none => rw [hres] at hpv; cases hpv
    | some r =>
      rw [hres] at hpv
      have hpv' : (p.1, r) = (presetName, v) := by simpa using hpv
      have hp1 : p.1 = presetName := congrArg Prod.fst hpv'
      have hnodup : (BuildImages.configs.map Prod.fst).Nodup := by decide
      have hpmem : (presetName, p.2) ∈ BuildImages.configs := by
        rw [← hp1]
        exact hp
      have hpc : p.2 = config := BuildImages.nodup_keys_value_eq hnodup hpmem hcfg
      rw [BuildImages.pairResult, hp1, hpc, hfail] at hres
      cases hres
  · show BuildImages.errorMsg f ∈
      BuildImages.logOverFiles env sourceDir outputBaseDir (dirListing.filter isImageFile)
    unfold BuildImages.logOverFiles
    refine List.mem_flatMap.mpr ⟨f, hf, ?_⟩
    unfold BuildImages.logOverConfigs
    refine List.mem_flatMap.mpr ⟨(presetName, config), hcfg, ?_⟩
    show BuildImages.errorMsg f ∈
      BuildImages.pairLog env (pathJoin sourceDir f) (pathJoin outputBaseDir presetName) f config
    rw [BuildImages.pairLog, hfail]
    simp

/-- Concrete instance of C6: a run where every conversion fails still issues
the four WebP attempts, writes the manifest last, logs the error, and leaves
the file's entry empty. -/
theorem C6_failure_handling_witness :
    ((BuildImages.createOptimizedImages envFail ["a.jpg"] "s" "o").1.cmds
      = BuildImages.cmdsOverFiles envFail "s" "o" (["a.jpg"].filter isImageFile)) ∧
    ((BuildImages.createOptimizedImages envFail ["a.jpg"] "s" "o").1.files).getLast?
      = some (pathJoin "o" "image-manifest.json") ∧
    ((∀ v, ("mobile", v) ∉ ([] : List (String × PresetOutput))) ∧
      BuildImages.errorMsg "a.jpg" ∈
        (BuildImages.createOptimizedImages envFail ["a.jpg"] "s" "o").1.log) :=
  ⟨(C6_failure_handling envFail ["a.jpg"] "s" "o").1,
   (C6_failure_handling envFail ["a.jpg"] "s" "o").2.1,
   (C6_failure_handling envFail ["a.jpg"] "s" "o").2.2 "a.jpg" [] (by decide) "mobile"
     ⟨800, 75, "-mobile"⟩ (by decide) (by decide)⟩

/-- Claim C9 (implicit): a (file, preset) failure is not filesystem-atomic:
with the mobile WebP conversion of `a.jpg` succeeding and its JPEG conversion
failing, the WebP output file is on disk at the end of the run while the
manifest records nothing at all for the pair. -/
theorem C9_non_atomic_failure :
    "o/mobile/a-mobile.webp" ∈
      (BuildImages.createOptimizedImages envNine ["a.jpg"] "s" "o").1.files ∧
    (BuildImages.createOptimizedImages envNine ["a.jpg"] "s" "o").2
      = [("a.jpg", [])] := by
  exact ⟨by decide, by decide⟩

/-- Claim C3 counterexample: in a fully successful packaging run, the mobile
WebP variant of `page1.jpg` lands flat at `dist/pages/page1-mobile.webp`,
and no file exists at the per-preset location `dist/pages/mobile/...` the
claim requires. -/
theorem C3_counterexample :
    "./dist/pages/page1-mobile.webp" ∈
      (BuildCloudflare.buildForCloudflare envSharpAll "h" ["page1.jpg"] []).map Prod.fst ∧
    "./dist/pages/mobile/page1-mobile.webp" ∉
      (BuildCloudflare.buildForCloudflare envSharpAll "h" ["page1.jpg"] []).map Prod.fst := by
  exact ⟨by decide, by decide⟩

/-- Claim C3 (amended): every successful (file, preset) conversion produces
exactly two files, `<basename><suffix>.webp` and `<basename><suffix>.jpg`;
the local optimizer writes them under the per-preset subdirectory
`<outputRoot>/<presetName>/`, while the packaging pipeline writes both flat
into `dist/pages` for every preset, with no per-preset subdirectory. -/
theorem C3_two_outputs_per_success :
    (∀ (env : String → Bool) (st : BuildImages.RunState)
        (inputPath outputDir filename : String) (config : Config),
      env (BuildImages.webpCommand inputPath
        (BuildImages.webpOut outputDir filename config) config) = true →
      env (BuildImages.jpegCommand inputPath
        (BuildImages.jpegOut outputDir filename config) config) = true →
      (BuildImages.optimizeImage env st inputPath outputDir filename config).1.files
        = st.files ++ [BuildImages.webpOut outputDir filename config,
            BuildImages.jpegOut outputDir filename config] ∧
      (BuildImages.optimizeImage env st inputPath outputDir filename config).2
        = some (PresetOutput.pair (BuildImages.webpOut outputDir filename config)
            (BuildImages.jpegOut outputDir filename config))) ∧
    (∀ (env : String → Bool) (dirListing : List String)
        (sourceDir outputBaseDir fname presetName : String) (config : Config),
      fname ∈ dirListing.filter isImageFile →
      (presetName, config) ∈ BuildImages.configs →
      BuildImages.pairOk env (pathJoin sourceDir fname) (pathJoin outputBaseDir presetName)
        fname config = true →
      BuildImages.webpOut (pathJoin outputBaseDir presetName) fname config ∈
        (BuildImages.createOptimizedImages env dirListing sourceDir outputBaseDir).1.files ∧
      BuildImages.jpegOut (pathJoin outputBaseDir presetName) fname config ∈
        (BuildImages.createOptimizedImages env dirListing sourceDir outputBaseDir).1.files) ∧
    (∀ (env : BuildCloudflare.SharpEnv) (fs : BuildCloudflare.Fs)
        (inputPath outputDir filename : String) (config : Config),
      env.webpOk inputPath (BuildImages.webpOut outputDir filename config) config = true →
      env.jpegOk inputPath (BuildImages.jpegOut outputDir filename config) config = true →
      (BuildCloudflare.optimizeWithSharp env fs inputPath outputDir filename config)
        = (BuildCloudflare.writeFs
            (BuildCloudflare.writeFs fs (BuildImages.webpOut outputDir filename config)
              (BuildCloudflare.FileContent.webpOf inputPath config))
            (BuildImages.jpegOut outputDir filename config)
            (BuildCloudflare.FileContent.jpegOf inputPath config),
          PresetOutput.pair (BuildImages.webpOut outputDir filename config)
            (BuildImages.jpegOut outputDir filename config))) ∧
    ((BuildCloudflare.buildForCloudflare envSharpAll "h" ["page1.jpg"] []).map Prod.fst
      = ["./dist/index.html", "./dist/pages/page1-mobile.webp",
         "./dist/pages/page1-mobile.jpg", "./dist/pages/page1-tablet.webp",
         "./dist/pages/page1-tablet.jpg", "./dist/pages/page1-desktop.webp",
         "./dist/pages/page1-desktop.jpg", "./dist/_headers"]) := by
  refine ⟨?_, ?_, ?_, by decide⟩
  · intro env st inputPath outputDir filename config hw hj
    rw [BuildImages.optimizeImage_eq]
    constructor
    · simp [BuildImages.pairFiles, BuildImages.pairWebpCmd, BuildImages.pairJpegCmd, hw, hj]
    · simp [BuildImages.pairResult, BuildImages.pairOk, BuildImages.pairWebpCmd,
        BuildImages.pairJpegCmd, hw, hj]
  · intro env dirListing sourceDir outputBaseDir fname presetName config hmem hcfg hok
    rw [BuildImages.createOptimizedImages_eq]
    obtain ⟨hw, hj⟩ : env (BuildImages.pairWebpCmd (pathJoin sourceDir fname)
        (pathJoin outputBaseDir presetName) fname config) = true ∧
        env (BuildImages.pairJpegCmd (pathJoin sourceDir fname)
          (pathJoin outputBaseDir presetName) fname config) = true := by
      simpa [BuildImages.pairOk] using hok
    have hpairmem : BuildImages.webpOut (pathJoin outputBaseDir presetName) fname config ∈
        BuildImages.pairFiles env (pathJoin sourceDir fname)
          (pathJoin outputBaseDir presetName) fname config ∧
        BuildImages.jpegOut (pathJoin outputBaseDir presetName) fname config ∈
        BuildImages.pairFiles env (pathJoin sourceDir fname)
          (pathJoin outputBaseDir presetName) fname config := by
      rw [BuildImages.pairFiles, if_pos hw, if_pos hj]
      exact ⟨List.mem_cons_self _ _, List.mem_cons_of_mem _ (List.mem_cons_self _ _)⟩
    have hsub : ∀ x, x ∈ BuildImages.pairFiles env (pathJoin sourceDir fname)
        (pathJoin outputBaseDir presetName) fname config →
        x ∈ BuildImages.filesOverFiles env sourceDir outputBaseDir
          (dirListing.filter isImageFile) := by
      intro x hx
      unfold BuildImages.filesOverFiles
      refine List.mem_flatMap.mpr ⟨fname, hmem, ?_⟩
      unfold BuildImages.filesOverConfigs
      exact List.mem_flatMap.mpr ⟨(presetName, config), hcfg, hx⟩
    constructor
    · exact List.mem_append.mpr (Or.inl (hsub _ hpairmem.1))
    · exact List.mem_append.mpr (Or.inl (hsub _ hpairmem.2))
  · intro env fs inputPath outputDir filename config hw hj
    simp [BuildCloudflare.optimizeWithSharp, hw, hj]

/-- Concrete instance of C3 (amended): a successful mobile conversion of
`a.jpg` in both pipelines. -/
theorem C3_two_outputs_per_success_witness :
    ((BuildImages.optimizeImage envOk ⟨[], [], []⟩ "s/a.jpg" "o/mobile" "a.jpg"
        ⟨800, 75, "-mobile"⟩).1.files
      = [] ++ [BuildImages.webpOut "o/mobile" "a.jpg" ⟨800, 75, "-mobile"⟩,
          BuildImages.jpegOut "o/mobile" "a.jpg" ⟨800, 75, "-mobile"⟩] ∧
      (BuildImages.optimizeImage envOk ⟨[], [], []⟩ "s/a.jpg" "o/mobile" "a.jpg"
        ⟨800, 75, "-mobile"⟩).2
        = some (PresetOutput.pair (BuildImages.webpOut "o/mobile" "a.jpg" ⟨800, 75, "-mobile"⟩)
            (BuildImages.jpegOut "o/mobile" "a.jpg" ⟨800, 75, "-mobile"⟩))) ∧
    (BuildImages.webpOut (pathJoin "o" "mobile") "a.jpg" ⟨800, 75, "-mobile"⟩ ∈
      (BuildImages.createOptimizedImages envOk ["a.jpg"] "s" "o").1.files ∧
      BuildImages.jpegOut (pathJoin "o" "mobile") "a.jpg" ⟨800, 75, "-mobile"⟩ ∈
      (BuildImages.createOptimizedImages envOk ["a.jpg"] "s" "o").1.files) ∧
    (BuildCloudflare.optimizeWithSharp envSharpAll [] "p/a.jpg" "d" "a.jpg" ⟨800, 75, "-mobile"⟩
      = (BuildCloudflare.writeFs
          (BuildCloudflare.writeFs [] (BuildImages.webpOut "d" "a.jpg" ⟨800, 75, "-mobile"⟩)
            (BuildCloudflare.FileContent.webpOf "p/a.jpg" ⟨800, 75, "-mobile"⟩))
          (BuildImages.jpegOut "d" "a.jpg" ⟨800, 75, "-mobile"⟩)
          (BuildCloudflare.FileContent.jpegOf "p/a.jpg" ⟨800, 75, "-mobile"⟩),
        PresetOutput.pair (BuildImages.webpOut "d" "a.jpg" ⟨800, 75, "-mobile"⟩)
          (BuildImages.jpegOut "d" "a.jpg" ⟨800, 75, "-mobile"⟩))) :=
  ⟨C3_two_outputs_per_success.1 envOk ⟨[], [], []⟩ "s/a.jpg" "o/mobile" "a.jpg"
      ⟨800, 75, "-mobile"⟩ (by decide) (by decide),
   C3_two_outputs_per_success.2.1 envOk ["a.jpg"] "s" "o" "a.jpg" "mobile"
      ⟨800, 75, "-mobile"⟩ (by decide) (by decide) (by decide),
   C3_two_outputs_per_success.2.2.1 envSharpAll [] "p/a.jpg" "d" "a.jpg"
      ⟨800, 75, "-mobile"⟩ (by decide) (by decide)⟩

/-- Claim C4 counterexample: no run of the local optimizer — the only script
that writes `outputDir/image-manifest.json` — ever records an
`{original: path}` value in its manifest: `optimizeImage` returns the
WebP/JPEG pair or nothing. -/
theorem C4_counterexample :
    ¬ ∃ (env : String → Bool) (dirListing : List String)
        (sourceDir outputBaseDir fname : String)
        (entry : List (String × PresetOutput)) (presetName p : String),
      (fname, entry) ∈
        (BuildImages.createOptimizedImages env dirListing sourceDir outputBaseDir).2 ∧
      (presetName, PresetOutput.original p) ∈ entry := by
  rintro ⟨env, dirListing, sourceDir, outputBaseDir, fname, entry, presetName, p, hmem, hentry⟩
  rw [BuildImages.createOptimizedImages_eq] at hmem
  rcases List.mem_map.mp hmem with ⟨f, _, hfe⟩
  have hf2 : BuildImages.entriesOverConfigs env (pathJoin sourceDir f) outputBaseDir f
      BuildImages.configs = entry := congrArg Prod.snd hfe
  rw [← hf2] at hentry
  rcases List.mem_filterMap.mp hentry with ⟨q, _, hqv⟩
  cases hres : BuildImages.pairResult env (pathJoin sourceDir f)
      (pathJoin outputBaseDir q.1) f q.2 with
  | none => rw [hres] at hqv; cases hqv
  | some r =>
    rw [hres] at hqv
    have hqv' : (q.1, r) = (presetName, PresetOutput.original p) := by simpa using hqv
    have hr : r = PresetOutput.original p := congrArg Prod.snd hqv'
    rw [BuildImages.pairResult] at hres
    split at hres
    · rw [hr] at hres
      cases Option.some.inj hres
    · cases hres

/-- Claim C4 (amended): every value in the serialized manifest of the local
optimizer is a `{webp, jpeg}` pair; the `{original: path}` per-file fallback
exists only in the packaging pipeline's `optimizeWithSharp` (which copies
the original and reports it when a conversion throws), and that pipeline
discards the returned value and writes no manifest file at all. -/
theorem C4_manifest_values :
    (∀ (env : String → Bool) (dirListing : List String)
        (sourceDir outputBaseDir fname : String) (entry : List (String × PresetOutput)),
      (fname, entry) ∈
        (BuildImages.createOptimizedImages env dirListing sourceDir outputBaseDir).2 →
      ∀ presetName v, (presetName, v) ∈ entry → ∃ w j, v = PresetOutput.pair w j) ∧
    (∀ (env : BuildCloudflare.SharpEnv) (fs : BuildCloudflare.Fs)
        (inputPath outputDir filename : String) (config : Config),
      (env.webpOk inputPath (BuildImages.webpOut outputDir filename config) config &&
        env.jpegOk inputPath (BuildImages.jpegOut outputDir filename config) config) = false →
      (BuildCloudflare.optimizeWithSharp env fs inputPath outputDir filename config).2
        = PresetOutput.original (pathJoin outputDir filename) ∧
      pathJoin outputDir filename ∈
        ((BuildCloudflare.optimizeWithSharp env fs inputPath outputDir filename config).1).map
          Prod.fst) ∧
    (∀ (env : BuildCloudflare.SharpEnv) (indexHtml : String) (pagesListing : List String)
        (dist0 : BuildCloudflare.Fs) (x : String),
      (x ++ "image-manifest.json") ∉
        (BuildCloudflare.buildForCloudflare env indexHtml pagesListing dist0).map Prod.fst) := by
  refine ⟨?_, ?_, ?_⟩
  · intro env dirListing sourceDir outputBaseDir fname entry hmem presetName v hv
    rw [BuildImages.createOptimizedImages_eq] at hmem
    rcases List.mem_map.mp hmem with ⟨f, _, hfe⟩
    have hf2 : BuildImages.entriesOverConfigs env (pathJoin sourceDir f) outputBaseDir f
        BuildImages.configs = entry := congrArg Prod.snd hfe
    rw [← hf2] at hv
    rcases List.mem_filterMap.mp hv with ⟨q, _, hqv⟩
    cases hres : BuildImages.pairResult env (pathJoin sourceDir f)
        (pathJoin outputBaseDir q.1) f q.2 with
    | none => rw [hres] at hqv; cases hqv
    | some r =>
      rw [hres] at hqv
      have hqv' : (q.1, r) = (presetName, v) := by simpa using hqv
      have hr : r = v := congrArg Prod.snd hqv'
      rw [BuildImages.pairResult] at hres
      split at hres
      · have := Option.some.inj hres
        exact ⟨_, _, by rw [← hr, ← this]⟩
      · cases hres
  · intro env fs inputPath outputDir filename config hfailed
    by_cases hw : env.webpOk inputPath (BuildImages.webpOut outputDir filename config) config = true
    · have hj : env.jpegOk inputPath (BuildImages.jpegOut outputDir filename config) config = false := by
        rw [hw] at hfailed
        simpa using hfailed
      constructor
      · simp [BuildCloudflare.optimizeWithSharp, hw, hj]
      · simp only [BuildCloudflare.optimizeWithSharp, hw, hj, if_pos, Bool.false_eq_true,
          if_false]
        exact BuildCloudflare.writeFs_mem _ _ _
    · constructor
      · simp [BuildCloudflare.optimizeWithSharp, hw]
      · simp only [BuildCloudflare.optimizeWithSharp, hw, Bool.false_eq_true, if_false]
        exact BuildCloudflare.writeFs_mem _ _ _
  · intro env indexHtml pagesListing dist0 x hmem
    exact BuildCloudflare.buildForCloudflare_good env indexHtml pagesListing dist0 _ hmem
      (strLast_append x "image-manifest.json" 'n' (by decide))

/-- Concrete instance of C4 (amended): a successful entry is a pair; a run
with failing JPEG conversions takes the fallback and reports `{original}`
(which nothing records); and no concrete build output is a manifest file. -/
theorem C4_manifest_values_witness :
    (∃ w j, PresetOutput.pair "o/mobile/a-mobile.webp" "o/mobile/a-mobile.jpg"
      = PresetOutput.pair w j) ∧
    ((BuildCloudflare.optimizeWithSharp envSharpNoJpeg [] "p/a.jpg" "d" "a.jpg"
        ⟨800, 75, "-mobile"⟩).2 = PresetOutput.original (pathJoin "d" "a.jpg") ∧
      pathJoin "d" "a.jpg" ∈
        ((BuildCloudflare.optimizeWithSharp envSharpNoJpeg [] "p/a.jpg" "d" "a.jpg"
          ⟨800, 75, "-mobile"⟩).1).map Prod.fst) ∧
    (("x/" ++ "image-manifest.json") ∉
      (BuildCloudflare.buildForCloudflare envSharpAll "h" ["page1.jpg"] []).map Prod.fst) :=
  ⟨C4_manifest_values.1 envOk ["a.jpg"] "s" "o" "a.jpg"
      [("mobile", PresetOutput.pair "o/mobile/a-mobile.webp" "o/mobile/a-mobile.jpg"),
       ("tablet", PresetOutput.pair "o/tablet/a-tablet.webp" "o/tablet/a-tablet.jpg"),
       ("desktop", PresetOutput.pair "o/desktop/a-desktop.webp" "o/desktop/a-desktop.jpg"),
       ("thumbnail", PresetOutput.pair "o/thumbnail/a-thumb.webp" "o/thumbnail/a-thumb.jpg")]
      (by decide) "mobile"
      (PresetOutput.pair "o/mobile/a-mobile.webp" "o/mobile/a-mobile.jpg") (by decide),
   C4_manifest_values.2.1 envSharpNoJpeg [] "p/a.jpg" "d" "a.jpg" ⟨800, 75, "-mobile"⟩
      (by decide),
   C4_manifest_values.2.2 envSharpAll "h" ["page1.jpg"] [] "x/"⟩

/-- Claim C8: whenever the total original byte size is nonzero, the reported
size-reduction percentage equals the spec formula
`(origBytes - optBytes) / origBytes * 100` rounded to one decimal place,
with `origBytes` summed over the source images and `optBytes` over all files
across every preset output directory. -/
theorem C8_size_reduction (sizeOf : String → Nat) (listDir : String → List String)
    (sourceDir outputBaseDir : String)
    (h : BuildImages.originalTotal sizeOf listDir sourceDir ≠ 0) :
    BuildImages.showSizeComparison sizeOf listDir sourceDir outputBaseDir
      = BuildImages.claimedSizeReduction
          (BuildImages.originalTotal sizeOf listDir sourceDir)
          (BuildImages.optimizedTotal sizeOf listDir outputBaseDir) := by
  have hne := h
  rfl

/-- Concrete instance of C8: one 200-byte source image and one 100-byte
optimized file give a well-defined reported reduction. -/
theorem C8_size_reduction_witness :
    BuildImages.originalTotal sizeOracle listOracle "s" ≠ 0 ∧
    BuildImages.showSizeComparison sizeOracle listOracle "s" "o"
      = BuildImages.claimedSizeReduction
          (BuildImages.originalTotal sizeOracle listOracle "s")
          (BuildImages.optimizedTotal sizeOracle listOracle "o") :=
  ⟨by decide, C8_size_reduction sizeOracle listOracle "s" "o" (by decide)⟩

end CorpFB
